import Mathlib

/-
Verification of the star-torrent metainfo codec (crates star-cloudburst and
star-bert) against its natural-language specification.

The Rust sources are shallowly embedded: pure functions become Lean
functions, `serde` deserializers become functions returning `Except`,
machine integers become `Nat`/`Int` with explicit range checks where the
source checks ranges, and a Rust `panic!` (or an out-of-bounds slice, which
panics in Rust) is modelled as an explicit outcome distinct from ordinary
error returns.
-/

/- ===================== File trees (star-cloudburst/src/lib/files.rs) ===================== -/

/-- Embeds `FileTreeInfo` (files.rs): attributes, length (`NonZeroU64`, modelled
as `Nat`), and the optional SHA-256 pieces root (modelled as its byte list). -/
structure FileTreeInfo where
  attr : Option String
  length : Nat
  pieces_root : Option (List Nat)
deriving DecidableEq, Repr

/-- Embeds `FileTree` (files.rs): `BTreeMap<String, FileTreeEntry>` is modelled as
its ascending-key association list (`BTreeMap` iteration is ascending by key),
and `FileTreeEntry` (`Either<FileTreeInfo, FileTree>`) as a sum. -/
inductive FileTree : Type where
  | mk (node : List (String × (FileTreeInfo ⊕ FileTree))) : FileTree
deriving Repr

/-- Embeds `FileTreeEntry`: `Either::Left` is a file, `Either::Right` a directory. -/
abbrev FileTreeEntry := FileTreeInfo ⊕ FileTree

/-- The entries of the root node. -/
def FileTree.node : FileTree → List (String × FileTreeEntry)
  | .mk n => n

/-- Embeds `FileTreePathView` (files.rs). -/
structure FileTreePathView where
  directory : List String
  name : String
  file_info : FileTreeInfo
deriving DecidableEq, Repr

/-- The state of `FileTreeDepthFirstIter` (files.rs): the `iters` work deque of
(path-prefix, remaining-siblings) frames, used as a stack via
`push_front`/`pop_front`, so the head of the list is the front. -/
abbrev FileTreeDFSState := List (List String × List (String × FileTreeEntry))

/-- Embeds `FileTree::iter_dfs` (files.rs): the initial iterator state holds one
frame with the root sentinel path `"./"` and the root node's entry iterator. -/
def FileTree.iter_dfs (t : FileTree) : FileTreeDFSState :=
  [(["./"], t.node)]

/-- Number of entries in an entry list, counting entries of nested subtrees;
the termination measure for the traversal. -/
def nodeWeight : List (String × FileTreeEntry) → Nat
  | [] => 0
  | (_, .inl _) :: rest => 1 + nodeWeight rest
  | (_, .inr (.mk sub)) :: rest => 1 + nodeWeight sub + nodeWeight rest

/-- Termination measure for `FileTreeDepthFirstIter::next`: frame count plus
twice the total remaining entry weight. Each self-recursive call of `next`
strictly decreases it. -/
def dfsMeasure (s : FileTreeDFSState) : Nat :=
  s.length + 2 * (s.map (fun frame => nodeWeight frame.2)).sum

/-- Embeds `FileTreeDepthFirstIter::next` (files.rs:190-235). The Rust method
mutates `self.iters`; here the state is passed and returned explicitly, so the
result is (yielded item, state after the call). The `Either::Right` arm and the
exhausted-iterator arm re-invoke `next` exactly as the source does
(`self.next()`). -/
def FileTreeDepthFirstIter.next : FileTreeDFSState → Option FileTreePathView × FileTreeDFSState
  | [] => (none, [])
  | (_, []) :: frames =>
      -- Current iterator has been expended; now traverse backward down the tree.
      FileTreeDepthFirstIter.next frames
  | (directory, (name, .inl file_info) :: cur_rest) :: frames =>
      (some ⟨directory, name, file_info⟩, (directory, cur_rest) :: frames)
  | (directory, (name, .inr (.mk sub)) :: cur_rest) :: frames =>
      -- The next iterator is the next directory rather than exhausting the current iterator.
      FileTreeDepthFirstIter.next
        ((directory ++ [name], sub) :: (directory, cur_rest) :: frames)
termination_by s => dfsMeasure s
decreasing_by
  · simp [dfsMeasure]; omega
  · simp [dfsMeasure, nodeWeight]; omega

/-- Counts the nested self-invocations a single call of
`FileTreeDepthFirstIter::next` performs before returning: 0 where the source
returns directly, and 1 plus the nested count where the source calls
`self.next()`. This is exactly the extra native call-stack depth the call
consumes. -/
def nextCallDepth : FileTreeDFSState → Nat
  | [] => 0
  | (_, []) :: frames => 1 + nextCallDepth frames
  | (_, (_, .inl _) :: _) :: _ => 0
  | (directory, (name, .inr (.mk sub)) :: cur_rest) :: frames =>
      1 + nextCallDepth ((directory ++ [name], sub) :: (directory, cur_rest) :: frames)
termination_by s => dfsMeasure s
decreasing_by
  · simp [dfsMeasure]; omega
  · simp [dfsMeasure, nodeWeight]; omega

/-- A file tree that is a chain of `n` nested single-entry directories ending in
one file: the adversarial deep input (compare `tests::filetree_dirs_o_fun`). -/
def chainTree (info : FileTreeInfo) : Nat → FileTree
  | 0 => .mk [("file", .inl info)]
  | n + 1 => .mk [("dir", .inr (chainTree info n))]

/-- The acceptance order written in the spec's words (§4.3 Traversal): depth
first, pre-order: entries of a level in (map) order; a leaf yields a view of
(path so far, name, leaf data); a subtree is fully expanded, with its name
appended to the path, before the remaining siblings continue. Used to compare
the iterator against the spec (refinement). -/
def specDfsEntries (dir : List String) : List (String × FileTreeEntry) → List FileTreePathView
  | [] => []
  | (name, .inl info) :: rest => ⟨dir, name, info⟩ :: specDfsEntries dir rest
  | (name, .inr (.mk sub)) :: rest =>
      specDfsEntries (dir ++ [name]) sub ++ specDfsEntries dir rest
termination_by l => nodeWeight l
decreasing_by
  all_goals (simp [nodeWeight]; try omega)

/-- Spec-order contents of a whole work-stack state: each frame flattened in
stack order. -/
def specDfsFrames : FileTreeDFSState → List FileTreePathView
  | [] => []
  | (dir, entries) :: frames => specDfsEntries dir entries ++ specDfsFrames frames

/-- Drains the iterator, collecting every yielded view in order. `fuel` is an
upper bound on the number of `next` calls; `dfsMeasure` strictly decreases at
every yielding step, so `dfsMeasure s + 1` fuel is always enough (see
`iterRunFuel_eq_specDfsFrames`). -/
def iterRunFuel : Nat → FileTreeDFSState → List FileTreePathView
  | 0, _ => []
  | fuel + 1, s =>
      match FileTreeDepthFirstIter.next s with
      | (none, _) => []
      | (some v, s') => v :: iterRunFuel fuel s'

/-- Every view yielded by repeatedly calling `FileTreeDepthFirstIter::next`,
in order. -/
def iterRun (s : FileTreeDFSState) : List FileTreePathView :=
  iterRunFuel (dfsMeasure s + 1) s

/- ===================== Bencode parsers (star-bert/src/parser) ===================== -/

namespace Bert

/-- Failure causes of the star-bert parsers. The source threads a rich
`BertErrorTrace` of context labels; the claims under verification only
distinguish success from failure, so the trace is collapsed to its terminal
cause. -/
inductive BertErrorKind where
  | digitExpected
  | tagMismatch
  | charMismatch
  | eof
  | neg0Forbidden
  | leadingZeroForbidden
  | intOverflow
deriving DecidableEq, Repr

/-- nom's `digit1`: one or more ASCII decimal digits. -/
def digit1 (input : List Char) : Except BertErrorKind (List Char × List Char) :=
  match input.takeWhile Char.isDigit with
  | [] => .error .digitExpected
  | ds => .ok (input.drop ds.length, ds)

/-- nom's `char(c)`: exactly the byte `c`. -/
def char (c : Char) (input : List Char) : Except BertErrorKind (List Char × Char) :=
  match input with
  | x :: rest => if x = c then .ok (rest, c) else .error .charMismatch
  | [] => .error .charMismatch

/-- nom's `tag(t)`: exactly the byte sequence `t`. -/
def tag (t : List Char) (input : List Char) : Except BertErrorKind (List Char × List Char) :=
  if input.take t.length = t then .ok (input.drop t.length, t) else .error .tagMismatch

/-- nom's `take(n)` (complete): the next `n` bytes, or an error if fewer
remain. -/
def take (n : Nat) (input : List Char) : Except BertErrorKind (List Char × List Char) :=
  if n ≤ input.length then .ok (input.drop n, input.take n) else .error .eof

/-- Numeric value of a decimal digit run. -/
def natOfDigits (ds : List Char) : Nat :=
  ds.foldl (fun acc c => acc * 10 + (c.toNat - 48)) 0

/-- `bytes_to_str_to_int::<usize>` (integer.rs:125-133) applied to a digit run:
Rust's `usize::from_str` accepts leading zeros and fails only on overflow
(usize is 64-bit). UTF-8 validation is trivial for digit runs. -/
def usize_from_str (ds : List Char) : Except BertErrorKind Nat :=
  if natOfDigits ds < 2 ^ 64 then .ok (natOfDigits ds) else .error .intOverflow

/-- Embeds `bytes` (bytes.rs:35-57): `flat_map(map_res(terminated(digit1,
char(':')), bytes_to_str_to_int::<usize>), take)` — a decimal length (any
digit run), a `:` delimiter, then exactly `length` bytes. -/
def bytes (input : List Char) : Except BertErrorKind (List Char × List Char) := do
  let (rest1, ds) ← digit1 input
  let (rest2, _) ← char ':' rest1
  let n ← usize_from_str ds
  take n rest2

/-- `bytes_to_str_to_int::<N>` for the signed integer production: an optional
`-` followed by digits. The claims use arbitrary-precision semantics (the
source is generic over `N: Integer + FromStr`, explicitly including `BigInt`),
so the value is an unbounded `Int`. -/
def int_from_str (ds : List Char) : Except BertErrorKind Int :=
  match ds with
  | '-' :: digits => .ok (-(natOfDigits digits : Int))
  | digits => .ok (natOfDigits digits : Int)

/-- Embeds `integer` (integer.rs:69-118): delimited by `i`/`e`; first
`verify(opt(peek(tag("-0"))), is_none)` rejects a `-0` prefix, then
`verify(opt(peek(pair(char('0'), digit1))), is_none)` rejects a leading zero
followed by more digits, then `alt((digit1, recognize(pair(char('-'),
digit1))))` consumes the digit run, and `map_res` converts it. -/
def integer (input : List Char) : Except BertErrorKind (List Char × Int) := do
  let (r1, _) ← tag ['i'] input
  -- verify(opt(peek(tag("-0"))), Option::is_none)
  match tag ['-', '0'] r1 with
  | .ok _ => .error .neg0Forbidden
  | .error _ => pure ()
  -- verify(opt(peek(pair(char('0'), digit1))), Option::is_none)
  match (do
      let (ra, _) ← char '0' r1
      digit1 ra : Except BertErrorKind (List Char × List Char)) with
  | .ok _ => .error .leadingZeroForbidden
  | .error _ => pure ()
  -- alt((digit1, recognize(pair(char('-'), digit1))))
  let (r2, numChars) ←
    match digit1 r1 with
    | .ok res => (.ok res : Except BertErrorKind (List Char × List Char))
    | .error _ =>
        match char '-' r1 with
        | .ok (ra, _) =>
            match digit1 ra with
            | .ok (rb, ds) => .ok (rb, '-' :: ds)
            | .error e => .error e
        | .error e => .error e
  let (r3, _) ← tag ['e'] r2
  let n ← int_from_str numChars
  .ok (r3, n)

end Bert

/- ===================== Piece length (star-cloudburst/src/lib/pieces.rs) ===================== -/

/-- Failure causes of `PieceLength::deserialize`. `integerDeserialize` is the
error the inner `NonZeroU64::deserialize(deserializer)?` propagates (zero, or a
value outside the u64 range); `invalidPieceLength` is the
`DeErrorTrait::invalid_value(..., "piece length should be greater than 16 and a
power of two")` error raised by `PieceLength::deserialize` itself. -/
inductive PieceLengthDeError where
  | integerDeserialize
  | invalidPieceLength
deriving DecidableEq, Repr

/-- The inner `NonZeroU64::deserialize` step: fails on zero and on values that
do not fit in a u64, yields the value otherwise. -/
def nonZeroU64_deserialize (n : Nat) : Except PieceLengthDeError Nat :=
  if n = 0 ∨ 2 ^ 64 ≤ n then .error .integerDeserialize else .ok n

/-- Models `u64::is_power_of_two` (used at pieces.rs:28). Per its contract it
returns true iff the value is `2^k` for some `k`; computed here via `Nat.log2`
(see `u64_is_power_of_two_iff`). -/
def u64_is_power_of_two (n : Nat) : Bool :=
  n != 0 && n == 2 ^ Nat.log2 n

/-- Embeds `PieceLength::deserialize` (pieces.rs:19-41): deserialize a
`NonZeroU64`, then accept iff `piece_length.get() >= 16 &&
piece_length.is_power_of_two()`, rejecting everything else with the
invalid-piece-length error. -/
def PieceLength.deserialize (n : Nat) : Except PieceLengthDeError Nat := do
  let piece_length ← nonZeroU64_deserialize n
  if 16 ≤ piece_length ∧ u64_is_power_of_two piece_length then
    .ok piece_length
  else
    .error .invalidPieceLength

/- ===================== URIs and DHT nodes (star-cloudburst/src/lib/uri) ===================== -/

/-- Character strings handled by the URI code, as plain character lists (the
inputs of interest are ASCII, one `Char` per byte). -/
abbrev Chars := List Char

/-- The view of `http::Uri` the validation and node code consumes: scheme,
host, port (as the digit substring of the authority), the full authority, and
`path_and_query`. -/
structure Uri where
  scheme : Option Chars
  host : Option Chars
  port : Option Chars
  authority : Option Chars
  path_and_query : Option Chars
deriving DecidableEq, Repr

/-- Splits a character list at the first occurrence of `"://"`. -/
def splitSchemeSep : Chars → Option (Chars × Chars)
  | [] => none
  | ':' :: '/' :: '/' :: rest => some ([], rest)
  | c :: rest => (splitSchemeSep rest).map (fun p => (c :: p.1, p.2))

/-- Nonempty all-decimal-digit run. -/
def isDigits (l : Chars) : Bool :=
  !l.isEmpty && l.all Char.isDigit

/-- Helper for `lastColonSplit`: walks the reversed list accumulating the
suffix until the first (reversed) colon. -/
def lastColonSplitAux : Chars → Chars → Option (Chars × Chars)
  | [], _ => none
  | ':' :: pre, suf => some (pre.reverse, suf)
  | c :: pre, suf => lastColonSplitAux pre (c :: suf)

/-- Splits a character list at its last colon, if any. -/
def lastColonSplit (l : Chars) : Option (Chars × Chars) :=
  lastColonSplitAux l.reverse []

/-- Splits an authority into (host, optional port digits): a trailing
`:<digits>` is the port, as in `http::uri::Authority`. -/
def hostPortOf (authority : Chars) : Chars × Option Chars :=
  match lastColonSplit authority with
  | some (pre, suf) => if isDigits suf then (pre, some suf) else (authority, none)
  | none => (authority, none)

/-- Characters `http::Uri` accepts in a registered name. -/
def isRegNameChar (c : Char) : Bool :=
  c.isAlphanum || c = '.' || c = '-' || c = '_'

/-- Characters `http::Uri` accepts in a scheme. -/
def isSchemeChar (c : Char) : Bool :=
  c.isAlphanum || c = '+' || c = '-' || c = '.'

/-- Whether a schemeless input is a valid authority-form URI
(registered name optionally followed by `:port`). -/
def isAuthorityForm (l : Chars) : Bool :=
  match hostPortOf l with
  | (h, _) => !h.isEmpty && h.all isRegNameChar && l.all (fun c => isRegNameChar c || c = ':')

/-- Model of the external `http::Uri` parser (`s.parse::<Uri>()`), restricted
to the URI shapes this crate exercises: `scheme://authority[/path]` absolute
URIs, origin-form rooted paths (which have no host), and authority-form inputs
such as `127.0.0.1:6881` (host and port, no scheme — accepted by `http::Uri`,
as the crate's own `localhost_ip` test relies on). -/
def uriParse (s : Chars) : Option Uri :=
  match s with
  | [] => none
  | '/' :: _ =>
      -- origin-form: path only, no scheme and no authority, hence no host
      some { scheme := none, host := none, port := none, authority := none,
             path_and_query := some s }
  | _ =>
    match splitSchemeSep s with
    | some (schemeStr, rest) =>
        if schemeStr.isEmpty || !schemeStr.all isSchemeChar then none
        else
          let authority := rest.takeWhile (fun c => c ≠ '/')
          let path := rest.drop authority.length
          if authority.isEmpty then none
          else
            let hp := hostPortOf authority
            if hp.1.isEmpty then none
            else
              some { scheme := some schemeStr, host := some hp.1, port := hp.2,
                     authority := some authority,
                     path_and_query := some (if path.isEmpty then ['/'] else path) }
    | none =>
        if isAuthorityForm s then
          let hp := hostPortOf s
          some { scheme := none, host := some hp.1, port := hp.2,
                 authority := some s, path_and_query := none }
        else none

/-- The `SANCTIONED_SCHEMES` allow-list (uriwrapper.rs:15-17). -/
def SANCTIONED_SCHEMES : List Chars :=
  ["ed2k".toList, "ftp".toList, "http".toList, "https".toList, "gopher".toList,
   "magnet".toList, "sftp".toList, "tcp".toList, "tftp".toList, "udp".toList,
   "ws".toList, "wss".toList]

/-- Errors of `UriWrapper::from_str` (uriwrapper.rs:79-123). -/
inductive UriError where
  | parseFailure
  | relativeWithoutBase
  | invalidScheme (scheme : Chars)
deriving DecidableEq, Repr

/-- Embeds `UriWrapper`: a validated `http::Uri`. -/
structure UriWrapper where
  uri : Uri
deriving DecidableEq, Repr

/-- Embeds `UriWrapper::from_str` (uriwrapper.rs:79-123): parse to a `Uri`;
reject if it has no host ("relative URL without a base"); if a scheme is
present, lower-case it and reject schemes outside `SANCTIONED_SCHEMES` with
the named invalid-scheme error, storing the lower-cased scheme on success; a
schemeless URI with a host is accepted as-is. -/
def UriWrapper.from_str (s : Chars) : Except UriError UriWrapper :=
  match uriParse s with
  | none => .error .parseFailure
  | some uri =>
      if uri.host.isSome then
        match uri.scheme with
        | some scheme =>
            let scheme_lower := scheme.map Char.toLower
            if SANCTIONED_SCHEMES.contains scheme_lower then
              .ok ⟨{ uri with scheme := some scheme_lower }⟩
            else
              .error (.invalidScheme scheme_lower)
        | none => .ok ⟨uri⟩
      else
        .error .relativeWithoutBase

/-- Decimal digit character. -/
def digitChar (n : Nat) : Char := Char.ofNat (48 + n)

/-- Fuel-driven decimal printing helper. -/
def natDigitsGo : Nat → Nat → Chars
  | 0, _ => []
  | fuel + 1, n => if n < 10 then [digitChar n] else natDigitsGo fuel (n / 10) ++ [digitChar (n % 10)]

/-- Decimal digits of a natural number (what `format!("{authority}:{port}")`
appends for the port). -/
def natDigits (n : Nat) : Chars := natDigitsGo (n + 1) n

/-- Embeds `Node` (uri/node.rs): a `UriWrapper` whose authority embeds a
port. -/
structure Node where
  uri : UriWrapper
deriving DecidableEq, Repr

/-- Errors of `Node::deserialize` (all surfaced as serde custom errors in the
source). -/
inductive NodeDeError where
  | uriInvalid (e : UriError)
  | missingAuthority
deriving DecidableEq, Repr

/-- Embeds `Node::deserialize` (uri/node.rs:31-66): deserialize the
`NodeTemp((uri, port))` wire pair — the `UriWrapper` via `from_str`, the port
as a `u16` — then append `:<port>` to the parsed authority and rebuild the
URI from its parts (so host and port are re-derived from the new
authority). -/
def Node.deserialize (s : Chars) (port : Nat) : Except NodeDeError Node :=
  match UriWrapper.from_str s with
  | .error e => .error (.uriInvalid e)
  | .ok w =>
      match w.uri.authority with
      | none => .error .missingAuthority
      | some auth =>
          let auth' := auth ++ ':' :: natDigits port
          let hp := hostPortOf auth'
          .ok ⟨⟨{ w.uri with authority := some auth', host := some hp.1, port := hp.2 }⟩⟩

/-- Helper for `rfindPortPos`: walks the reversed authority in step with the
expected characters, recording the reverse offset `j` of the first
position-wise match; once the expected characters are exhausted the closure
only ever returns false, so the search fails. -/
def rfindAux : Chars → Chars → Nat → Option Nat
  | [], _, _ => none
  | _ :: _, [], _ => none
  | a :: arest, e :: erest, j => if a = e then some j else rfindAux arest erest (j + 1)

/-- Embeds the port search of `Node::serialize` (uri/node.rs:95-104):
`authority.rfind(|ch| ...)` with a closure that advances the stateful iterator
`once(':').chain(port_str.chars())` on every call. `rfind` tests characters
from the end of the authority, so the k-th character from the end is compared
with the k-th character of `":<port>"`; the result is the byte index of the
first (from the end) position-wise match. -/
def rfindPortPos (authority port_str : Chars) : Option Nat :=
  (rfindAux authority.reverse (':' :: port_str) 0).map
    (fun j => authority.length - 1 - j)

/-- Outcome of `Node::serialize`: the emitted `NodeTemp` pair (URI and `u16`
port), an ordinary serializer error, or a panic — Rust's `&authority[i..]`
panics when `i` exceeds the string length. -/
inductive SerOutcome where
  | emitted (uri_temp : Uri) (port : Nat)
  | err (msg : String)
  | panicked
deriving DecidableEq, Repr

/-- Embeds `Node::serialize` (uri/node.rs:68-119): split the URI into scheme,
authority and path; require a port; locate the port in the authority with the
reverse search `rfindPortPos`; slice the authority around
`[port_pos, port_pos + port_str.len())` (panicking exactly when the upper
bound exceeds the authority length, as Rust string slicing does); recombine
`{scheme}{sep}{before}{after}/{query}` and re-parse it; emit the
`NodeTemp((uri_temp, port))` pair. -/
def Node.serialize (node : Node) : SerOutcome :=
  let uri := node.uri.uri
  let schemePair : Chars × Chars :=
    match uri.scheme with
    | some s => (s, "://".toList)
    | none => ([], [])
  match uri.authority with
  | none => .err "URI is missing an authority."
  | some authority =>
      let query := uri.path_and_query.getD []
      match uri.port with
      | none => .err "Port is missing but is canonically always available."
      | some port_str =>
          match rfindPortPos authority port_str with
          | none => .err "Port is missing but is canonically always available."
          | some port_pos =>
              if authority.length < port_pos + port_str.length then
                .panicked
              else
                let recombined :=
                  schemePair.1 ++ schemePair.2 ++ authority.take port_pos
                    ++ authority.drop (port_pos + port_str.length) ++ '/' :: query
                match uriParse recombined with
                | none => .err "Invalid URI after splitting and recombining `Node`; this shouldn't happen."
                | some uri_temp => .emitted uri_temp (Bert.natOfDigits port_str)

/- ===================== MetaInfo and Torrent (star-cloudburst/src/lib) ===================== -/

/-- Embeds `FlatFile` (files/flatfile.rs); digests are kept abstract as
strings. -/
structure FlatFile where
  attr : Option String
  length : Nat
  path : List String
  md5sum : Option String
  sha1 : Option String
  symlink_path : Option (List String)
deriving DecidableEq, Repr

/-- Embeds `MetaV1FileRepr` (files/flatfile.rs): a list of `FlatFile` or a
single length. -/
inductive MetaV1FileRepr where
  | multiple (files : List FlatFile)
  | single (length : Nat)
deriving DecidableEq, Repr

/-- Embeds `MetaV1` (metainfo/metav1.rs). The `private` field is `is_private`
(`private` is a Lean keyword). -/
structure MetaV1 where
  files : MetaV1FileRepr
  length : Option Nat
  md5sum : Option String
  name : String
  pieces : List Nat
  piece_length : Nat
  is_private : Bool
deriving DecidableEq, Repr

/-- Embeds `MetaV2` (metainfo/metav2.rs). -/
structure MetaV2 where
  file_tree : FileTree
  name : String
  meta_version : Nat
  piece_length : Nat
  is_private : Bool
  root_hash : List Nat
deriving Repr

/-- Embeds `Hybrid` (metainfo/hybrid.rs): every file-describing field is
optional — in particular `file_tree`. -/
structure Hybrid where
  files : Option (List FlatFile)
  file_tree : Option FileTree
  length : Option Nat
  meta_version : Option Nat
  md5sum : Option String
  name : String
  pieces : Option (List Nat)
  piece_length : Nat
  is_private : Bool
  root_hash : Option (List Nat)
deriving Repr

/-- Embeds the `MetaInfo` tagged union (metainfo.rs:20-30). -/
inductive MetaInfo where
  | metaV1 (info : MetaV1)
  | metaV2 (info : MetaV2)
  | hybrid (info : Hybrid)
deriving Repr

/-- Embeds `FileDisplayInfo` (files/filedisplayinfo.rs). -/
structure FileDisplayInfo where
  file_path : List String
  name : String
  length : Nat
deriving DecidableEq, Repr

/-- Embeds `FileDisplayInfoBranches` (files/filedisplayinfo.rs); the lazy Rust
iterators are materialised as the lists they would yield. -/
inductive FileDisplayInfoBranches where
  | metaV1Once (f : FileDisplayInfo)
  | metaV1Multi (fs : List FileDisplayInfo)
  | metaV2 (fs : List FileDisplayInfo)
deriving DecidableEq, Repr

/-- The iterator returned by `MetaInfo::iter_files`. -/
structure FileDisplayInfoIter where
  branches : FileDisplayInfoBranches
deriving DecidableEq, Repr

/-- Display info of one `FlatFile`: the path with the last component removed,
that last component as the name (`file_path.remove(file_path.len() - 1)`,
which panics on an empty path — modelled as `Except.error`). -/
def flatfile_display (f : FlatFile) : Except String FileDisplayInfo :=
  match f.path.getLast? with
  | none => .error "attempt to subtract with overflow"
  | some nm => .ok ⟨f.path.dropLast, nm, f.length⟩

/-- `MetaV1`'s `as_file_display` (compare `IntoFileDisplayInfo for MetaV1`,
files/filedisplayinfo.rs:47-72): a single implicit file uses the torrent name
and empty path; a file list maps each `FlatFile`. -/
def MetaV1.as_file_display (info : MetaV1) : Except String FileDisplayInfoBranches :=
  match info.files with
  | .single length => .ok (.metaV1Once ⟨[], info.name, length⟩)
  | .multiple fs => (fs.mapM flatfile_display).map .metaV1Multi

/-- `FileTree`'s `as_file_display` (compare `IntoFileDisplayInfo for
FileTree`, files/filedisplayinfo.rs:74-85): map the depth-first views. -/
def FileTree.as_file_display (t : FileTree) : FileDisplayInfoBranches :=
  .metaV2 ((iterRun t.iter_dfs).map fun v => ⟨v.directory, v.name, v.file_info.length⟩)

/-- Embeds `MetaInfo::iter_files` (metainfo.rs:36-55). The Rust signature
returns a bare `FileDisplayInfoIter` — it has no error channel — so
`Except.error` here models divergence by `panic!`: the `Hybrid` arm panics
with the message below whenever `file_tree` is `None`. -/
def MetaInfo.iter_files : MetaInfo → Except String FileDisplayInfoIter
  | .metaV1 info => info.as_file_display.map (⟨·⟩)
  | .metaV2 info => .ok ⟨info.file_tree.as_file_display⟩
  | .hybrid info =>
      match info.file_tree with
      | some tree => .ok ⟨tree.as_file_display⟩
      | none => .error "Hybrid torrent doesn't have `FileTree`.\nFIX THIS LATER."

/-- Embeds `InfoHashAny` (metainfo/infohash.rs): SHA-1 and SHA-256 digests of
the info dict, as byte lists. -/
structure InfoHashAny where
  sha1 : List Nat
  sha2 : List Nat
deriving DecidableEq, Repr

/-- Embeds `InfoHashVersioned` (metainfo/infohash.rs). -/
inductive InfoHashVersioned where
  | v1 (sha1 : List Nat)
  | v2 (sha2 : List Nat)
  | hybridHash (sha1 : List Nat) (sha2 : List Nat)
deriving DecidableEq, Repr

/-- The variant-aware view `Torrent::info_hash` builds from the cached
`InfoHashAny` (torrent.rs:130-137). -/
def infoHashVersionedOf (info : MetaInfo) (h : InfoHashAny) : InfoHashVersioned :=
  match info with
  | .metaV1 _ => .v1 h.sha1
  | .metaV2 _ => .v2 h.sha2
  | .hybrid _ => .hybridHash h.sha1 h.sha2

/-- Embeds `Torrent` (torrent.rs:36-91). The `OnceLock<InfoHashAny>` cell is a
single-init option: `none` is the untouched cell, `some` the published
value. -/
structure Torrent where
  announce : Option UriWrapper
  announce_list : Option (List (List UriWrapper))
  created_by : Option String
  comment : Option String
  creation_date : Option Nat
  encoding : Option String
  httpseeds : Option (List UriWrapper)
  info : MetaInfo
  info_hash_internal : Option InfoHashAny
  nodes : Option (List Node)
  piece_layers : Option (List (List Nat × List Nat))
  publisher_url : Option UriWrapper
  signatures : Option (List (String × List Nat))
  url_list : Option (List UriWrapper)
deriving Repr

/-- Embeds `Torrent::info_hash` (torrent.rs:117-138).
`info_hash_internal.get_or_try_init(|| InfoHashAny::calculate_infohash(&self.info))`
runs the computation only when the cell is empty, publishes the value on
success and leaves the cell empty on error; the variant-aware view is then
built from the cell's value. `calcHash` stands for
`InfoHashAny::calculate_infohash` (canonical bencode re-serialization of the
info dict plus SHA-1/SHA-256 digesting, metainfo/infohash.rs:18-28); it is a
parameter because the claims under verification concern memoization, not
digest internals. The result is (returned value, Torrent after the call,
number of `calcHash` invocations this call performed). -/
def Torrent.info_hash (calcHash : MetaInfo → Except String InfoHashAny) (t : Torrent) :
    Except String InfoHashVersioned × Torrent × Nat :=
  match t.info_hash_internal with
  | some h => (.ok (infoHashVersionedOf t.info h), t, 0)
  | none =>
      match calcHash t.info with
      | .error e => (.error e, t, 1)
      | .ok h =>
          (.ok (infoHashVersionedOf t.info h),
           { t with info_hash_internal := some h }, 1)

/- ===================== Spec-side predicates and fixtures ===================== -/

/-- Acceptance condition of URI validation as the (amended) spec states it:
the input must parse, have a host, and — when a scheme is present — its
lower-cased scheme must be in the allow-list. -/
def uriAcceptSpec (s : Chars) : Bool :=
  match uriParse s with
  | none => false
  | some u =>
      u.host.isSome &&
        (match u.scheme with
         | none => true
         | some sch => SANCTIONED_SCHEMES.contains (sch.map Char.toLower))

/-- Acceptance condition exactly as the claim states it: an absolute URI with
a host whose (lower-cased) scheme is in the allow-list — so a scheme is
required. -/
def c8ClaimedOk (s : Chars) : Bool :=
  match uriParse s with
  | none => false
  | some u =>
      u.host.isSome &&
        (match u.scheme with
         | none => false
         | some sch => SANCTIONED_SCHEMES.contains (sch.map Char.toLower))

/-- A minimal `MetaV1` fixture. -/
def sampleMetaV1 : MetaV1 := ⟨.single 5, none, none, "sample", [], 16, false⟩

/-- A `Torrent` fixture whose info-hash cell is already initialised. -/
def sampleTorrentCached : Torrent :=
  ⟨none, none, none, none, none, none, none, .metaV1 sampleMetaV1,
   some ⟨[1], [2]⟩, none, none, none, none, none⟩

/-- A fixture info-hash computation. -/
def sampleCalcHash : MetaInfo → Except String InfoHashAny := fun _ => .ok ⟨[3], [4]⟩

/-- A `Hybrid` metainfo fixture with no file tree (legal per the wire format:
every file-describing field of `Hybrid` is optional). -/
def sampleHybridNoTree : Hybrid :=
  ⟨none, none, none, none, none, "hybrid", none, 16, false, none⟩

/- ===================== Theorems ===================== -/

theorem FileTree.eta (t : FileTree) : t = .mk t.node := by
  cases t; rfl

theorem next_nil : FileTreeDepthFirstIter.next [] = (none, []) := by
  simp [FileTreeDepthFirstIter.next]

theorem next_exhausted (d : List String) (fs : FileTreeDFSState) :
    FileTreeDepthFirstIter.next ((d, []) :: fs) = FileTreeDepthFirstIter.next fs := by
  rw [FileTreeDepthFirstIter.next]

theorem next_file (d : List String) (n : String) (i : FileTreeInfo)
    (r : List (String × FileTreeEntry)) (fs : FileTreeDFSState) :
    FileTreeDepthFirstIter.next ((d, (n, .inl i) :: r) :: fs)
      = (some ⟨d, n, i⟩, (d, r) :: fs) := by
  rw [FileTreeDepthFirstIter.next]

theorem next_dir (d : List String) (n : String) (sub : List (String × FileTreeEntry))
    (r : List (String × FileTreeEntry)) (fs : FileTreeDFSState) :
    FileTreeDepthFirstIter.next ((d, (n, .inr (.mk sub)) :: r) :: fs)
      = FileTreeDepthFirstIter.next ((d ++ [n], sub) :: (d, r) :: fs) := by
  rw [FileTreeDepthFirstIter.next]

theorem next_none_state (s : FileTreeDFSState) :
    ∀ s₂, FileTreeDepthFirstIter.next s = (none, s₂) → s₂ = [] := by
  induction s using FileTreeDepthFirstIter.next.induct with
  | case1 => intro s₂ h; rw [next_nil] at h; exact (Prod.mk.injEq _ _ _ _ ▸ h).2.symm ▸ rfl
  | case2 d fs ih => intro s₂ h; rw [next_exhausted] at h; exact ih s₂ h
  | case3 d n i r fs => intro s₂ h; rw [next_file] at h; simp at h
  | case4 d n sub r fs ih => intro s₂ h; rw [next_dir] at h; exact ih s₂ h

theorem next_none_spec (s : FileTreeDFSState) :
    ∀ s₂, FileTreeDepthFirstIter.next s = (none, s₂) → specDfsFrames s = [] := by
  induction s using FileTreeDepthFirstIter.next.induct with
  | case1 => intro s₂ _; rfl
  | case2 d fs ih =>
      intro s₂ h
      rw [next_exhausted] at h
      simp [specDfsFrames, specDfsEntries, ih s₂ h]
  | case3 d n i r fs => intro s₂ h; rw [next_file] at h; simp at h
  | case4 d n sub r fs ih =>
      intro s₂ h
      rw [next_dir] at h
      have := ih s₂ h
      simp [specDfsFrames, specDfsEntries, List.append_assoc] at this ⊢
      exact this

theorem next_some_spec (s : FileTreeDFSState) :
    ∀ v s', FileTreeDepthFirstIter.next s = (some v, s') →
      specDfsFrames s = v :: specDfsFrames s' := by
  induction s using FileTreeDepthFirstIter.next.induct with
  | case1 => intro v s' h; rw [next_nil] at h; simp at h
  | case2 d fs ih =>
      intro v s' h
      rw [next_exhausted] at h
      simp [specDfsFrames, specDfsEntries, ih v s' h]
  | case3 d n i r fs =>
      intro v s' h
      rw [next_file] at h
      obtain ⟨hv, hs⟩ := Prod.mk.injEq _ _ _ _ ▸ h
      subst hs
      simp only [Option.some.injEq] at hv
      subst hv
      simp [specDfsFrames, specDfsEntries]
  | case4 d n sub r fs ih =>
      intro v s' h
      rw [next_dir] at h
      have := ih v s' h
      simp [specDfsFrames, specDfsEntries, List.append_assoc] at this ⊢
      exact this

theorem next_some_measure (s : FileTreeDFSState) :
    ∀ v s', FileTreeDepthFirstIter.next s = (some v, s') →
      dfsMeasure s' < dfsMeasure s := by
  induction s using FileTreeDepthFirstIter.next.induct with
  | case1 => intro v s' h; rw [next_nil] at h; simp at h
  | case2 d fs ih =>
      intro v s' h
      rw [next_exhausted] at h
      have h2 : dfsMeasure fs < dfsMeasure ((d, []) :: fs) := by
        simp [dfsMeasure, nodeWeight]; try omega
      exact lt_trans (ih v s' h) h2
  | case3 d n i r fs =>
      intro v s' h
      rw [next_file] at h
      obtain ⟨_, hs⟩ := Prod.mk.injEq _ _ _ _ ▸ h
      subst hs
      simp [dfsMeasure, nodeWeight]; try omega
  | case4 d n sub r fs ih =>
      intro v s' h
      rw [next_dir] at h
      have h2 : dfsMeasure ((d ++ [n], sub) :: (d, r) :: fs)
          < dfsMeasure ((d, (n, .inr (.mk sub)) :: r) :: fs) := by
        simp [dfsMeasure, nodeWeight]; try omega
      exact lt_trans (ih v s' h) h2

theorem iterRunFuel_eq_specDfsFrames :
    ∀ (fuel : Nat) (s : FileTreeDFSState), dfsMeasure s < fuel →
      iterRunFuel fuel s = specDfsFrames s := by
  intro fuel
  induction fuel with
  | zero => intro s h; omega
  | succ fuel ih =>
      intro s hs
      rw [iterRunFuel]
      cases h : FileTreeDepthFirstIter.next s with
      | mk o s' =>
          cases o with
          | none => simpa using (next_none_spec s s' h).symm
          | some v =>
              have hlt := next_some_measure s v s' h
              have := ih s' (by omega)
              simp only []
              rw [this, next_some_spec s v s' h]

theorem iterRun_eq_specDfsFrames (s : FileTreeDFSState) :
    iterRun s = specDfsFrames s :=
  iterRunFuel_eq_specDfsFrames (dfsMeasure s + 1) s (Nat.lt_succ_self _)

theorem chainTree_nextCallDepth (info : FileTreeInfo) :
    ∀ (n : Nat) (dir : List String) (frames : FileTreeDFSState),
      nextCallDepth ((dir, (chainTree info n).node) :: frames) = n := by
  intro n
  induction n with
  | zero => intro dir frames; simp [chainTree, FileTree.node, nextCallDepth]
  | succ n ih =>
      intro dir frames
      rw [chainTree]
      rw [show (FileTree.mk [("dir", .inr (chainTree info n))]).node
            = [("dir", Sum.inr (chainTree info n))] from rfl]
      rw [show (chainTree info n : FileTree) = .mk (chainTree info n).node from
        FileTree.eta _]
      rw [nextCallDepth]
      rw [ih]
      omega

/-- C1: refuted as stated — the claim says `FileTreeDepthFirstIter::next` never
recurses per directory so its call-stack use is constant in the tree depth, but
the source's `Either::Right` arm calls `self.next()` (files.rs:229, with the
comment "This is recursive and can cause a stack overflow with a malicious
torrent"). On the depth-`n` chain of nested single-entry directories, the first
`next` call performs exactly `n` nested self-invocations, so the nested call
depth — native stack consumption — grows linearly and is unbounded over
attacker-chosen depths. -/
theorem next_recursion_depth_unbounded :
    (∀ (info : FileTreeInfo) (n : Nat),
        nextCallDepth (FileTree.iter_dfs (chainTree info n)) = n)
  ∧ (∀ (info : FileTreeInfo) (c : Nat), ∃ n,
        c < nextCallDepth (FileTree.iter_dfs (chainTree info n))) := by
  constructor
  · intro info n
    exact chainTree_nextCallDepth info n ["./"] []
  · intro info c
    refine ⟨c + 1, ?_⟩
    rw [show FileTree.iter_dfs (chainTree info (c + 1))
          = [(["./"], (chainTree info (c + 1)).node)] from rfl]
    rw [chainTree_nextCallDepth info (c + 1) ["./"] []]
    omega

/-- C5: `iter_dfs` yields file views in map order (ascending key, since
`BTreeMap` iteration is ascending and the map is embedded as its sorted
association list), pre-order and fully depth-first — the collected output
equals the spec-order flattening `specDfsEntries`; for a tree with exactly one
root file the first `next` yields the single view with directory equal to the
root sentinel `"./"` and the run collects exactly that view; and the iterator
is fused: any `next` returning `none` leaves the empty state, on which `next`
returns `none` forever. -/
theorem iter_dfs_preorder_and_fused :
    (∀ t : FileTree, iterRun t.iter_dfs = specDfsEntries ["./"] t.node)
  ∧ (∀ (name : String) (info : FileTreeInfo),
      FileTreeDepthFirstIter.next (FileTree.iter_dfs (.mk [(name, .inl info)]))
        = (some ⟨["./"], name, info⟩, [(["./"], [])])
      ∧ iterRun (FileTree.iter_dfs (.mk [(name, .inl info)]))
          = [⟨["./"], name, info⟩])
  ∧ (∀ (s s₂ : FileTreeDFSState),
      FileTreeDepthFirstIter.next s = (none, s₂) → s₂ = [])
  ∧ FileTreeDepthFirstIter.next [] = (none, []) := by
  refine ⟨?_, ?_, next_none_state, next_nil⟩
  · intro t
    rw [iterRun_eq_specDfsFrames]
    simp [FileTree.iter_dfs, specDfsFrames]
  · intro name info
    constructor
    · rw [show FileTree.iter_dfs (.mk [(name, .inl info)])
            = [(["./"], [(name, Sum.inl info)])] from rfl]
      rw [next_file]
    · rw [iterRun_eq_specDfsFrames]
      simp [FileTree.iter_dfs, specDfsFrames, specDfsEntries, FileTree.node]

/-- Witness for C5 at a concrete input: a singleton tree yields exactly its one
view rooted at `"./"`, and a `next` that returned `none` (here: on the empty
state) has left the empty state. -/
theorem iter_dfs_preorder_and_fused_witness :
    iterRun (FileTree.iter_dfs (.mk [("a", .inl ⟨none, 1, none⟩)]))
      = [⟨["./"], "a", ⟨none, 1, none⟩⟩]
  ∧ ([] : FileTreeDFSState) = [] :=
  ⟨(iter_dfs_preorder_and_fused.2.1 "a" ⟨none, 1, none⟩).2,
   iter_dfs_preorder_and_fused.2.2.1 [] []
     (by rw [next_nil])⟩

/-- C9: calling `MetaInfo::iter_files` on a `Hybrid` metainfo whose
`file_tree` is `None` diverges by `panic!` (the error channel of the model —
the Rust signature returns a bare iterator, so `Except.error` here is a panic,
with exactly the source's message) rather than returning any iterator value,
in particular not an empty one, even though `Hybrid::file_tree` is an
optional field. -/
theorem iter_files_hybrid_no_tree_panics :
    ∀ h : Hybrid, h.file_tree = none →
      MetaInfo.iter_files (.hybrid h)
        = .error "Hybrid torrent doesn't have `FileTree`.\nFIX THIS LATER." := by
  intro h hnone
  simp [MetaInfo.iter_files, hnone]

/-- Witness for C9: the concrete tree-less hybrid fixture panics. -/
theorem iter_files_hybrid_no_tree_panics_witness :
    MetaInfo.iter_files (.hybrid sampleHybridNoTree)
      = .error "Hybrid torrent doesn't have `FileTree`.\nFIX THIS LATER." :=
  iter_files_hybrid_no_tree_panics sampleHybridNoTree rfl

/-- C4: `Torrent::info_hash` is deterministic and memoized. For any
computation `calcHash` and torrent `t`: a second call returns a result equal
(bit-identical) to the first; the metainfo is unchanged; if the first call
succeeds, the two calls together run the underlying digest computation at most
once (and the second call runs it zero times); and an already-initialised cell
is never recomputed and survives the call unchanged (cached for the object's
lifetime). -/
theorem info_hash_deterministic_memoized :
    ∀ (calcHash : MetaInfo → Except String InfoHashAny) (t : Torrent),
      (Torrent.info_hash calcHash t).1
          = (Torrent.info_hash calcHash (Torrent.info_hash calcHash t).2.1).1
      ∧ (Torrent.info_hash calcHash t).2.1.info = t.info
      ∧ ((Torrent.info_hash calcHash t).1.isOk = true →
          (Torrent.info_hash calcHash t).2.2
            + (Torrent.info_hash calcHash (Torrent.info_hash calcHash t).2.1).2.2 ≤ 1)
      ∧ (∀ h, t.info_hash_internal = some h →
          (Torrent.info_hash calcHash t).2.2 = 0
          ∧ (Torrent.info_hash calcHash t).2.1.info_hash_internal = some h) := by
  intro calcHash t
  cases hcell : t.info_hash_internal with
  | some h =>
      refine ⟨?_, ?_, ?_, ?_⟩ <;>
        simp [Torrent.info_hash, hcell]
  | none =>
      cases hcalc : calcHash t.info with
      | error e =>
          refine ⟨?_, ?_, ?_, ?_⟩
          · simp [Torrent.info_hash, hcell, hcalc]
          · simp [Torrent.info_hash, hcell, hcalc]
          · intro hok
            simp [Torrent.info_hash, hcell, hcalc, Except.isOk, Except.toBool] at hok
          · intro h hsome; simp at hsome
      | ok h =>
          refine ⟨?_, ?_, ?_, ?_⟩
          · simp [Torrent.info_hash, hcell, hcalc]
          · simp [Torrent.info_hash, hcell, hcalc]
          · intro _
            simp [Torrent.info_hash, hcell, hcalc]
          · intro h' hsome; simp at hsome

/-- Witness for C4: on the cached fixture the first call performs zero
computations, the two calls together at most one, and the cell survives. -/
theorem info_hash_deterministic_memoized_witness :
    ((Torrent.info_hash sampleCalcHash sampleTorrentCached).2.2
        + (Torrent.info_hash sampleCalcHash
            (Torrent.info_hash sampleCalcHash sampleTorrentCached).2.1).2.2 ≤ 1)
    ∧ (Torrent.info_hash sampleCalcHash sampleTorrentCached).2.2 = 0
    ∧ (Torrent.info_hash sampleCalcHash sampleTorrentCached).2.1.info_hash_internal
        = some ⟨[1], [2]⟩ :=
  ⟨(info_hash_deterministic_memoized sampleCalcHash sampleTorrentCached).2.2.1 rfl,
   ((info_hash_deterministic_memoized sampleCalcHash sampleTorrentCached).2.2.2
      ⟨[1], [2]⟩ rfl).1,
   ((info_hash_deterministic_memoized sampleCalcHash sampleTorrentCached).2.2.2
      ⟨[1], [2]⟩ rfl).2⟩

theorem takeWhile_digits_append (ds rest : List Char)
    (h : ∀ c ∈ ds, c.isDigit = true) :
    (ds ++ ':' :: rest).takeWhile Char.isDigit = ds := by
  induction ds with
  | nil => simp [List.takeWhile_cons]
  | cons c cs ih =>
      have hc : c.isDigit = true := h c (by simp)
      simp [List.takeWhile_cons, hc, ih (fun x hx => h x (by simp [hx]))]

/-- C6: the Bencode integer parser rejects a `-0` digit run (whatever follows),
rejects a leading `0` followed by any further digit (whatever follows), and on
the spec's concrete examples: `i014e` and `i-0e` fail, `i0e` parses to 0 with
no remaining input. -/
theorem integer_rejects_minus_zero_and_leading_zero :
    (∀ rest : List Char,
        Bert.integer ('i' :: '-' :: '0' :: rest) = .error .neg0Forbidden)
  ∧ (∀ (d : Char) (rest : List Char), d.isDigit = true →
        Bert.integer ('i' :: '0' :: d :: rest) = .error .leadingZeroForbidden)
  ∧ Bert.integer "i014e".toList = .error .leadingZeroForbidden
  ∧ Bert.integer "i-0e".toList = .error .neg0Forbidden
  ∧ Bert.integer "i0e".toList = .ok ([], 0) := by
  refine ⟨fun _ => rfl, ?_, rfl, rfl, rfl⟩
  intro d rest hd
  have htw : (d :: rest).takeWhile Char.isDigit = d :: rest.takeWhile Char.isDigit := by
    simp [List.takeWhile_cons, hd]
  simp only [Bert.integer, Bert.digit1, Bert.tag, Bert.char, htw, List.take_succ_cons,
    List.take_zero, List.drop_succ_cons, List.drop_zero, List.length_cons, List.length_nil,
    List.cons.injEq, List.length_singleton, Bind.bind, Except.bind]
  simp [htw, Pure.pure, Except.pure]

/-- Witness for C6 at a concrete digit: a `0` followed by the digit `7` is
rejected as a leading zero. -/
theorem integer_rejects_witness :
    Bert.integer ['i', '0', '7'] = .error .leadingZeroForbidden :=
  integer_rejects_minus_zero_and_leading_zero.2.1 '7' [] (by decide)

/-- C3 counterexample: the byte-string parser accepts the length prefix `04`
— a leading-zero digit run the claim says must be rejected — and parses
`04:spam` successfully to `spam`. -/
theorem bytes_leading_zero_length_accepted :
    Bert.bytes "04:spam".toList = .ok ([], "spam".toList) := rfl

/-- C3 amended: the length prefix of `bytes` is any nonempty digit run —
`digit1` followed by `usize` conversion, which both accept leading zeros — so
for every digit run (leading zeros included) whose value fits in a `usize` and
does not exceed the remaining input, the parser succeeds and returns exactly
that many bytes. No leading-zero rule is applied to length prefixes; only the
integer parser enforces one. -/
theorem bytes_length_accepts_leading_zeros :
    ∀ (ds rest : List Char), ds ≠ [] → (∀ c ∈ ds, c.isDigit = true) →
      Bert.natOfDigits ds < 2 ^ 64 → Bert.natOfDigits ds ≤ rest.length →
      Bert.bytes (ds ++ ':' :: rest)
        = .ok (rest.drop (Bert.natOfDigits ds), rest.take (Bert.natOfDigits ds)) := by
  intro ds rest hne hdig hlt hle
  cases ds with
  | nil => exact absurd rfl hne
  | cons d ds' =>
      have htw := takeWhile_digits_append (d :: ds') rest hdig
      have hdrop : ((d :: ds') ++ ':' :: rest).drop (d :: ds').length = ':' :: rest :=
        List.drop_left _ _
      simp only [Bert.bytes, Bert.digit1, Bert.char, Bert.usize_from_str, Bert.take,
        htw, hdrop, Bind.bind, Except.bind]
      have hlt' : Bert.natOfDigits (d :: ds') < 18446744073709551616 := by
        simpa using hlt
      simp [hlt', hle]

/-- Witness for C3's amended claim: the leading-zero length `07` parses and
takes exactly seven bytes. -/
theorem bytes_length_accepts_leading_zeros_witness :
    Bert.bytes "07:1234567".toList = .ok ([], "1234567".toList) := by
  have h := bytes_length_accepts_leading_zeros "07".toList "1234567".toList
    (by decide) (by decide) (by decide) (by decide)
  simpa using h

theorem u64_is_power_of_two_iff (n : Nat) :
    u64_is_power_of_two n = true ↔ ∃ k, n = 2 ^ k := by
  constructor
  · intro h
    simp only [u64_is_power_of_two, Bool.and_eq_true, bne_iff_ne, beq_iff_eq, ne_eq] at h
    exact ⟨Nat.log2 n, h.2⟩
  · rintro ⟨k, rfl⟩
    have h1 : Nat.log2 (2 ^ k) = k := by
      rw [Nat.log2_eq_log_two]; exact Nat.log_pow (by norm_num) k
    have h2 : (2 : Nat) ^ k ≠ 0 := (pow_pos (by norm_num : (0:ℕ) < 2) k).ne'
    simp [u64_is_power_of_two, h1, h2]

/-- C7 counterexample: decoding the value 0 fails, but with the error of the
inner `NonZeroU64` deserializer (`NonZeroU64::deserialize(deserializer)?`,
pieces.rs:26), not with the invalid-piece-length error the claim names for
every rejected value. -/
theorem piece_length_zero_error_channel :
    PieceLength.deserialize 0 = .error .integerDeserialize
  ∧ PieceLengthDeError.integerDeserialize ≠ PieceLengthDeError.invalidPieceLength :=
  ⟨rfl, by decide⟩

/-- C7 amended: decoding a piece length succeeds iff the value is a power of
two, at least the literal bound 16, and a representable nonzero u64; the
decoded value is the input; and every nonzero in-range value failing the
power-of-two/minimum check is rejected with the invalid-piece-length error —
while 0 (and out-of-u64-range values) are rejected earlier by the
`NonZeroU64` deserializer with its own error. -/
theorem piece_length_pow2_min16 :
    (∀ n, u64_is_power_of_two n = true ↔ ∃ k, n = 2 ^ k)
  ∧ (∀ n, PieceLength.deserialize n = .ok n ↔
        (16 ≤ n ∧ n < 2 ^ 64 ∧ u64_is_power_of_two n = true))
  ∧ (∀ n r, PieceLength.deserialize n = .ok r → r = n)
  ∧ (∀ n, 0 < n → n < 2 ^ 64 →
        ¬(16 ≤ n ∧ u64_is_power_of_two n = true) →
        PieceLength.deserialize n = .error .invalidPieceLength) := by
  refine ⟨u64_is_power_of_two_iff, ?_, ?_, ?_⟩
  · intro n
    by_cases h1 : n = 0 ∨ 2 ^ 64 ≤ n
    · have hde : PieceLength.deserialize n = .error .integerDeserialize := by
        simp only [PieceLength.deserialize, nonZeroU64_deserialize, Bind.bind, Except.bind,
          if_pos h1]
      rw [hde]
      simp only [reduceCtorEq, false_iff, not_and]
      intro h16 hlt
      rcases h1 with rfl | hge
      · omega
      · exact absurd hlt (Nat.not_lt.mpr hge)
    · have hde : PieceLength.deserialize n
          = if 16 ≤ n ∧ u64_is_power_of_two n = true then .ok n
            else .error .invalidPieceLength := by
        simp only [PieceLength.deserialize, nonZeroU64_deserialize, Bind.bind, Except.bind,
          if_neg h1]
      push_neg at h1
      rw [hde]
      by_cases h2 : 16 ≤ n ∧ u64_is_power_of_two n = true
      · rw [if_pos h2]
        simp only [Except.ok.injEq, true_iff]
        exact ⟨h2.1, h1.2, h2.2⟩
      · rw [if_neg h2]
        simp only [reduceCtorEq, false_iff, not_and]
        intro h16 _ hpow
        exact h2 ⟨h16, hpow⟩
  · intro n r h
    by_cases h1 : n = 0 ∨ 2 ^ 64 ≤ n
    · rw [show PieceLength.deserialize n = .error .integerDeserialize from by
        simp only [PieceLength.deserialize, nonZeroU64_deserialize, Bind.bind, Except.bind,
          if_pos h1]] at h
      cases h
    · have hde : PieceLength.deserialize n
          = if 16 ≤ n ∧ u64_is_power_of_two n = true then .ok n
            else .error .invalidPieceLength := by
        simp only [PieceLength.deserialize, nonZeroU64_deserialize, Bind.bind, Except.bind,
          if_neg h1]
      rw [hde] at h
      split_ifs at h
      exact (Except.ok.injEq _ _ ▸ h).symm
  · intro n hpos hlt hbad
    have h1 : ¬(n = 0 ∨ 2 ^ 64 ≤ n) := by
      push_neg
      exact ⟨hpos.ne', hlt⟩
    simp only [PieceLength.deserialize, nonZeroU64_deserialize, Bind.bind, Except.bind,
      if_neg h1, if_neg hbad]

/-- Witness for C7's amended claim: 24 is nonzero, in range, and not a power
of two, so it draws the invalid-piece-length error; and 32 decodes to
itself. -/
theorem piece_length_pow2_min16_witness :
    PieceLength.deserialize 24 = .error .invalidPieceLength
  ∧ PieceLength.deserialize 32 = .ok 32 :=
  ⟨piece_length_pow2_min16.2.2.2 24 (by norm_num) (by norm_num)
      (by simp [u64_is_power_of_two, Nat.log2]),
   (piece_length_pow2_min16.2.1 32).mpr
      ⟨by norm_num, by norm_num, by simp [u64_is_power_of_two, Nat.log2]⟩⟩

/-- C8 counterexample: the input `127.0.0.1:6881` — which parses with a host
but no scheme at all — is accepted by `UriWrapper::from_str` although it is
not an absolute URI whose (lower-cased) scheme is in the allow-list, so the
validator does not accept *exactly* the scheme-allow-listed absolute URIs as
the claim states. -/
theorem uriwrapper_accepts_outside_claimed_set :
    (UriWrapper.from_str "127.0.0.1:6881".toList).isOk = true
  ∧ c8ClaimedOk "127.0.0.1:6881".toList = false :=
  ⟨rfl, rfl⟩

/-- C8 amended: validation accepts exactly the parse results that have a host
and whose scheme, *when present*, lower-cases into the allow-list (schemeless
host-bearing URIs are accepted as well); concretely,
`https://example.com/` and `udp://host:666/announce` are accepted,
`/etc/shadow` is rejected as relative ("relative URL without a base"), and
`file://host/path` is rejected with the named invalid-scheme error. -/
theorem uriwrapper_from_str_acceptance :
    (∀ s : Chars, (UriWrapper.from_str s).isOk = uriAcceptSpec s)
  ∧ (UriWrapper.from_str "https://example.com/".toList).isOk = true
  ∧ UriWrapper.from_str "/etc/shadow".toList = .error .relativeWithoutBase
  ∧ UriWrapper.from_str "file://host/path".toList
      = .error (.invalidScheme "file".toList)
  ∧ (UriWrapper.from_str "udp://host:666/announce".toList).isOk = true := by
  refine ⟨?_, rfl, rfl, rfl, rfl⟩
  intro s
  cases hp : uriParse s with
  | none => simp [UriWrapper.from_str, uriAcceptSpec, hp, Except.isOk, Except.toBool]
  | some u =>
      obtain ⟨sc, ho, po, au, pq⟩ := u
      cases sc with
      | none =>
          cases ho <;>
            simp [UriWrapper.from_str, uriAcceptSpec, hp, Except.isOk, Except.toBool]
      | some sch =>
          cases ho with
          | none =>
              simp [UriWrapper.from_str, uriAcceptSpec, hp, Except.isOk, Except.toBool]
          | some h =>
              by_cases hc : (sch.map Char.toLower) ∈ SANCTIONED_SCHEMES <;>
                simp [UriWrapper.from_str, uriAcceptSpec, hp, hc, Except.isOk,
                  Except.toBool]

/-- C10: whenever the external parser yields a URI that has a host but no
scheme, `UriWrapper::from_str` accepts it unchanged — the allow-list check is
only reached when a scheme is present. -/
theorem uriwrapper_schemeless_host_accepted :
    ∀ (s : Chars) (u : Uri), uriParse s = some u → u.host.isSome = true →
      u.scheme = none → UriWrapper.from_str s = .ok ⟨u⟩ := by
  intro s u hp hh hs
  simp [UriWrapper.from_str, hp, hh, hs]

/-- Witness for C10: the crate's own `localhost_ip` test vector
`127.0.0.1:6881` parses with a host and no scheme and is accepted. -/
theorem uriwrapper_schemeless_host_accepted_witness :
    UriWrapper.from_str "127.0.0.1:6881".toList
      = .ok ⟨⟨none, some "127.0.0.1".toList, some "6881".toList,
             some "127.0.0.1:6881".toList, none⟩⟩ :=
  uriwrapper_schemeless_host_accepted "127.0.0.1:6881".toList
    ⟨none, some "127.0.0.1".toList, some "6881".toList,
     some "127.0.0.1:6881".toList, none⟩ rfl rfl rfl

/-- C2: refuted as stated — decoding the wire pair `("127.0.0.1", 6881)` (the
crate's own `localhost_ip` test vector, over the schemeless authority form
every allow-listed scheme shares) succeeds, but serializing the resulting
`Node` panics instead of emitting the original pair: the `rfind` closure
advances its expected-`:<port>` iterator once per scanned character, so on the
authority `127.0.0.1:6881` it matches at byte index 11 (inside `6881`, where
the third-from-last character `8` meets the third expected character `8`), and
the slice `&authority[11 + 4..]` of the 14-byte authority is out of bounds. -/
theorem node_roundtrip_panics :
    ∃ node : Node,
      Node.deserialize "127.0.0.1".toList 6881 = .ok node
      ∧ Node.serialize node = .panicked := by
  refine ⟨⟨⟨⟨none, some "127.0.0.1".toList, some "6881".toList,
            some "127.0.0.1:6881".toList, none⟩⟩⟩, ?_, ?_⟩
  · rfl
  · rfl
